import Mathlib

set_option maxRecDepth 100000

/-!
Verification of the ckbit reaction-order module (src/ckbit/rxn_ord.py).

Python strings are embedded as `List Char`; a Python string literal "s" becomes
("s".toList).  Literal brace characters inside string literals are written with
the escapes \x7b and \x7d.  Python exceptions are embedded as `Except` errors;
the module raises only `UserWarning`, embedded as the inductive type
`UserWarning` below.  Out-of-repo collaborators (numpy log, the md5 hex digest,
the pystan compiler and the file system) are passed in as explicit function
parameters, since their code is not part of this repository.
-/

/-- Embeds the `UserWarning` exceptions raised by src/ckbit/rxn_ord.py:
`priorNotFound term` is the raise at lines 54-55 (message
"{term}not found as a variable, cannot set its prior") and
`warmupNotLessThanIters w i` is the raise at lines 169-170 (message
"Warmup must be less than iters ..."). -/
inductive UserWarning where
  | priorNotFound (term : List Char)
  | warmupNotLessThanIters (warmup iters : Int)
deriving DecidableEq

/-- Embeds the Python substring test `s.find(t) != -1`: `t` occurs contiguously
inside `s`.  (`s.find("") == 0`, so the empty pattern is always found, which
matches `[] <:+: s` always holding.) -/
def containsSub (s t : List Char) : Bool :=
  decide (t <:+: s)

/-- Embeds `p.split('~')[0]` from line 52: the prefix of `p` before the first
tilde (the whole of `p` when it has no tilde). -/
def termOf (p : List Char) : List Char :=
  p.takeWhile (fun c => decide (c ≠ '~'))

/-- Embeds Python `s.replace(old, new)` (lines 57-64): replaces every
non-overlapping occurrence of `old` in `s` by `new`, scanning left to right and
resuming after each replaced occurrence.  The patterns passed by the source
always contain a tilde, so `old` is never empty there; for totality an empty
`old` is treated as matching nowhere (Python would instead interleave `new`
everywhere, a case the source cannot reach). -/
def replaceAllAux (old new : List Char) : Nat → List Char → List Char
  | _, [] => []
  | 0, c :: s => c :: s
  | fuel + 1, c :: s =>
    if old ≠ [] ∧ old.isPrefixOf (c :: s) then
      new ++ replaceAllAux old new fuel (List.drop (old.length - 1) s)
    else
      c :: replaceAllAux old new fuel s

/-- The scan of `replaceAllAux` consumes at least one list element per unit of
fuel (a matched occurrence consumes `old.length ≥ 1` elements), so any fuel of
at least the length of the scanned list yields the untruncated result. -/
def replaceAll (old new s : List Char) : List Char :=
  replaceAllAux old new s.length s

/-- The data block built at lines 31-35 of src/ckbit/rxn_ord.py. -/
def data_block : List Char :=
  ("data \x7b\n  int<lower=0> N;\n  vector[N] x;\n  vector[N] y;\n\x7d\n".toList)

/-- The parameters block built at lines 37-42 of src/ckbit/rxn_ord.py. -/
def par_block : List Char :=
  ("parameters \x7b\n  real intercept;          // intercept of best fit line\n  real rxn_ord;   // slope of best fit line\n  real<lower=0> sigma;               // measurement error\n\x7d\n".toList)

/-- The default model block built at lines 44-49 of src/ckbit/rxn_ord.py. -/
def model_block : List Char :=
  ("model \x7b\n  sigma ~ cauchy(0, 10);\n  intercept ~ normal(10,100);\n  rxn_ord ~ normal(0,100);\n  y ~ normal(intercept + rxn_ord * x, sigma);\x7d\n".toList)

/-- One iteration of the prior-override loop body after the term-existence
check (lines 56-64): three independent `if` statements, each applied to the
block as updated by the previous one; `term` is `p.split('~')[0]` and each
replacement pattern is `"{}~ <default distribution>".format(term)`. -/
def applyPrior (block p : List Char) : List Char :=
  let term := termOf p
  let b1 :=
    if containsSub p ("sigma".toList) then
      replaceAll (term ++ ("~ cauchy(0, 10)".toList)) p block
    else block
  let b2 :=
    if containsSub p ("intercept".toList) then
      replaceAll (term ++ ("~ normal(10,100)".toList)) p b1
    else b1
  let b3 :=
    if containsSub p ("rxn_ord".toList) then
      replaceAll (term ++ ("~ normal(0,100)".toList)) p b2
    else b2
  b3

/-- The prior-override loop of lines 50-64: for each override in order, first
the term-existence check against the current (already modified) model block
(lines 52-55, raising `UserWarning` on failure), then the three replacement
branches. -/
def applyPriors : List (List Char) → List Char → Except UserWarning (List Char)
  | [], block => .ok block
  | p :: ps, block =>
    if containsSub block (termOf p) then applyPriors ps (applyPrior block p)
    else .error (.priorNotFound (termOf p))

/-- Embeds `write_rxn_ord_stan_code` (lines 16-66).  `priors=None` and
`priors=[]` both skip the loop (`if priors:` is false for both), which
coincides with `applyPriors [] model_block = .ok model_block`; the result is
always `data_block + par_block + model_block` with the (possibly modified)
model block. -/
def write_rxn_ord_stan_code (priors : Option (List (List Char))) : Except UserWarning (List Char) :=
  match priors with
  | none => .ok (data_block ++ par_block ++ model_block)
  | some ps => (applyPriors ps model_block).map (fun mb => data_block ++ par_block ++ mb)

/-- The dictionary returned by `rxn_ord_exp_data` (lines 91-93): size, log
pressures, log absolute rates. -/
structure RxnOrdData where
  N : Nat
  x : List Rat
  y : List Rat
deriving DecidableEq

/-- Embeds `rxn_ord_exp_data` (lines 68-94).  The Excel parsing is out of
scope: the two parsed numeric columns `data.Pressure` and `data.Rate` are the
inputs, and the elementwise `np.log` of the external numerical library is the
function parameter `log`.  `np.size(lnPress)` is the length of the mapped
pressure column. -/
def rxn_ord_exp_data (log : Rat → Rat) (press rates : List Rat) : RxnOrdData :=
  let lnPress := press.map log
  let lnRates := rates.map (fun r => log |r|)
  { N := lnPress.length, x := lnPress, y := lnRates }

/-- One entry of the MCMC initialization list (lines 176-177). -/
structure InitDict where
  intercept : Rat
  rxn_ord : Rat
  sigma : Rat
deriving DecidableEq

/-- The `init` argument passed to `sm.sampling` (lines 174-179): either the
per-chain list of dictionaries or the string "random". -/
inductive InitSpec where
  | init_list (l : List InitDict)
  | random
deriving DecidableEq

/-- The inference-engine invocation assembled by `MCMC` (lines 172-185): the
model text handed to `StanModel_cache` and the arguments of `sm.sampling`.
Constructing this value is the embedding of invoking the external engine, so
an `MCMC` run that raises beforehand never produces one. -/
structure SamplingCall where
  model_code : List Char
  data : RxnOrdData
  warmup : Int
  iter : Int
  chains : Nat
  init : InitSpec
deriving DecidableEq

/-- Embeds the `MCMC` driver (lines 97-185) up to the point where the external
inference engine is reached.  Mirrored control flow: process the data (line
163), write the Stan code (line 165, may raise), default or validate the
warmup (lines 166-170, may raise), then build the initialization list and the
engine call (compilation via `StanModel_cache` at line 172 and `sm.sampling`
at lines 182-185 both belong to the returned `SamplingCall`).  `int(iters/2)`
is integer division truncating toward zero.  Printing, plotting and the
engine-drawn random seed are presentation effects outside the embedding. -/
def MCMC (log : Rat → Rat) (press rates : List Rat) (priors : Option (List (List Char)))
    (warmup : Option Int) (iters : Int) (chains : Nat) (init_random : Bool)
    (int_init rxn_ord_init sigma_init : Rat) : Except UserWarning SamplingCall :=
  let rxn_ord_data := rxn_ord_exp_data log press rates
  match write_rxn_ord_stan_code priors with
  | .error e => .error e
  | .ok rxn_ord_code =>
    let checkedWarmup : Except UserWarning Int :=
      match warmup with
      | none => .ok (Int.tdiv iters 2)
      | some w =>
        if w ≥ iters then .error (.warmupNotLessThanIters w iters) else .ok w
    match checkedWarmup with
    | .error e => .error e
    | .ok w =>
      let init_list : InitSpec :=
        if init_random then .random
        else .init_list (List.replicate chains
          { intercept := int_init, rxn_ord := rxn_ord_init, sigma := sigma_init })
      .ok { model_code := rxn_ord_code, data := rxn_ord_data, warmup := w,
            iter := iters, chains := chains, init := init_list }

/-- Embeds the summary-table construction of the `VI` driver (lines 291-301):
`names = fit['sampler_param_names'][:-1]`, one row per retained name, each row
pairing the name with the rounded mean, standard deviation and the
2.5/25/50/75/97.5 percent quantiles of that parameter's samples.  The
external numerical primitives `round(., 2)`, `np.mean`, `np.std` and
`np.quantile` are the function parameters `rnd`, `mean`, `sd`, `quantile`. -/
def VI_summary_table (rnd : Rat → Rat) (mean sd : List Rat → Rat)
    (quantile : List Rat → Rat → Rat)
    (sample_names : List (List Char)) (sample_vals : List (List Rat)) :
    List (List Char × List Rat) :=
  let names := sample_names.dropLast
  let rows := names.length
  (List.range rows).map (fun i =>
    (names.getD i [],
     [rnd (mean (sample_vals.getD i [])),
      rnd (sd (sample_vals.getD i [])),
      rnd (quantile (sample_vals.getD i []) 0.025),
      rnd (quantile (sample_vals.getD i []) 0.25),
      rnd (quantile (sample_vals.getD i []) 0.5),
      rnd (quantile (sample_vals.getD i []) 0.75),
      rnd (quantile (sample_vals.getD i []) 0.975)]))

/-- The outcome of `open(cache_fn, 'rb')` at line 423: `fail` when the call
raises (file absent or unreadable, caught by the bare `except`), `found sm`
when the file opens and holds a pickled model `sm`. -/
inductive CacheRead (SM : Type) where
  | fail
  | found (sm : SM)

/-- The observable outcome of `StanModel_cache`: the returned model, the
`pickle.dump` write performed on a miss (path and object), and whether the
cache-hit notice "Using cached StanModel" was printed. -/
structure CacheOutcome (SM : Type) where
  sm : SM
  dumped : Option (List Char × SM)
  used_cache_msg : Bool

/-- The cache filename computed at lines 417-421:
`cached-{model_name}-{md5 hex digest of the code}.pkl`, or
`cached-model-{digest}.pkl` when `model_name is None`.  The md5 hex digest of
the external hashlib library is the function parameter `md5hex`. -/
def StanModel_cache_fn (md5hex : List Char → List Char) (model_code : List Char)
    (model_name : Option (List Char)) : List Char :=
  let code_hash := md5hex model_code
  match model_name with
  | none => ("cached-model-".toList) ++ code_hash ++ (".pkl".toList)
  | some name => ("cached-".toList) ++ name ++ ("-".toList) ++ code_hash ++ (".pkl".toList)

/-- Embeds `StanModel_cache` (lines 402-432).  `fs` is the state of the file
system at the computed cache path; `compile` is the external
`pystan.StanModel` compiler.  On a failed open the except-branch compiles
fresh and pickles the result to the cache path; on a successful open the
else-branch returns the unpickled model and prints the cache notice. -/
def StanModel_cache {SM : Type} (md5hex : List Char → List Char) (compile : List Char → SM)
    (fs : List Char → CacheRead SM) (model_code : List Char)
    (model_name : Option (List Char)) : CacheOutcome SM :=
  let cache_fn := StanModel_cache_fn md5hex model_code model_name
  match fs cache_fn with
  | .fail =>
    let sm := compile model_code
    { sm := sm, dumped := some (cache_fn, sm), used_cache_msg := false }
  | .found sm => { sm := sm, dumped := none, used_cache_msg := true }

/-- The three model parameters whose default priors the generator knows. -/
inductive RxnParam where
  | sigma
  | intercept
  | rxn_ord
deriving DecidableEq, Fintype

/-- The parameter name as it appears in the Stan code. -/
def nameStr : RxnParam → List Char
  | .sigma => ("sigma".toList)
  | .intercept => ("intercept".toList)
  | .rxn_ord => ("rxn_ord".toList)

/-- The default prior statement of a parameter, as it stands (without the
trailing semicolon) in the default model block. -/
def defaultPrior : RxnParam → List Char
  | .sigma => ("sigma ~ cauchy(0, 10)".toList)
  | .intercept => ("intercept ~ normal(10,100)".toList)
  | .rxn_ord => ("rxn_ord ~ normal(0,100)".toList)

/-- A canonical user override string "name ~ distribution". -/
def mkOv (T : RxnParam) (D : List Char) : List Char :=
  nameStr T ++ (" ~ ".toList) ++ D

/-- The statement occupying a parameter slot of the model block: the default
prior when unassigned, the canonical override otherwise. -/
def stmtOf (T : RxnParam) : Option (List Char) → List Char
  | none => defaultPrior T
  | some D => mkOv T D

/-- The model block with each parameter slot filled per the assignment `f`:
for `f = fun _ => none` this is exactly the default `model_block`, and in
general it is the default block with precisely the assigned slots rewritten,
every other byte unchanged. -/
def blockOf (f : RxnParam → Option (List Char)) : List Char :=
  ("model \x7b\n  ".toList) ++ stmtOf .sigma (f .sigma) ++ (";\n  ".toList) ++
    stmtOf .intercept (f .intercept) ++ (";\n  ".toList) ++
    stmtOf .rxn_ord (f .rxn_ord) ++
    (";\n  y ~ normal(intercept + rxn_ord * x, sigma);\x7d\n".toList)

/-- First assignment of a parameter in a canonical override list. -/
def assignOf : List (RxnParam × List Char) → RxnParam → Option (List Char)
  | [], _ => none
  | (T, D) :: rest, U => if T = U then some D else assignOf rest U

/-- Point update of an assignment. -/
def updateAssign (f : RxnParam → Option (List Char)) (T : RxnParam) (D : List Char) :
    RxnParam → Option (List Char) :=
  fun U => if U = T then some D else f U

/-- A distribution text is name-free when none of the three recognized
parameter names occurs in it as a substring. -/
def noName (D : List Char) : Prop :=
  ¬ (("sigma".toList) <:+: D) ∧ ¬ (("intercept".toList) <:+: D) ∧
    ¬ (("rxn_ord".toList) <:+: D)

instance : DecidablePred noName := fun D => by
  unfold noName
  infer_instance

/-! Lemmas: fuel irrelevance and unfolding equations for `replaceAll`. -/

theorem replaceAllAux_eq_of_le (old new : List Char) :
    ∀ (f1 : Nat) (s : List Char) (f2 : Nat), s.length ≤ f1 → s.length ≤ f2 →
      replaceAllAux old new f1 s = replaceAllAux old new f2 s := by
  intro f1
  induction f1 with
  | zero =>
    intro s f2 hs1 _
    have : s = [] := List.length_eq_zero.mp (Nat.le_zero.mp hs1)
    subst this
    cases f2 <;> rfl
  | succ f1 ih =>
    intro s f2 hs1 hs2
    cases s with
    | nil => cases f2 <;> rfl
    | cons c s =>
      cases f2 with
      | zero => simp at hs2
      | succ f2 =>
        simp only [replaceAllAux]
        by_cases h : old ≠ [] ∧ old.isPrefixOf (c :: s)
        · rw [if_pos h, if_pos h]
          have hlen : (List.drop (old.length - 1) s).length ≤ s.length := by
            simp [List.length_drop]
          congr 1
          exact ih _ _ (le_trans hlen (Nat.le_of_succ_le_succ hs1))
            (le_trans hlen (Nat.le_of_succ_le_succ hs2))
        · rw [if_neg h, if_neg h]
          congr 1
          exact ih _ _ (Nat.le_of_succ_le_succ hs1) (Nat.le_of_succ_le_succ hs2)

theorem replaceAll_nil (old new : List Char) : replaceAll old new [] = [] := rfl

theorem replaceAll_cons_pos {old : List Char} (new : List Char) {c : Char} {s : List Char}
    (hold : old ≠ []) (hpre : old <+: c :: s) :
    replaceAll old new (c :: s) = new ++ replaceAll old new (List.drop old.length (c :: s)) := by
  have hpre' : old.isPrefixOf (c :: s) := List.isPrefixOf_iff_prefix.mpr hpre
  have hlen : 1 ≤ old.length := List.length_pos.mpr hold
  unfold replaceAll
  simp only [List.length_cons, replaceAllAux, if_pos (And.intro hold hpre')]
  congr 1
  have hdrop : List.drop (old.length - 1) s = List.drop old.length (c :: s) := by
    cases old with
    | nil => exact absurd rfl hold
    | cons o os => simp
  rw [hdrop]
  exact replaceAllAux_eq_of_le old new s.length _ _
    (by simp only [List.length_drop, List.length_cons]; omega) (le_refl _)

theorem replaceAll_cons_neg {old : List Char} (new : List Char) {c : Char} {s : List Char}
    (h : ¬ (old ≠ [] ∧ old <+: c :: s)) :
    replaceAll old new (c :: s) = c :: replaceAll old new s := by
  have h' : ¬ (old ≠ [] ∧ old.isPrefixOf (c :: s)) := by
    intro hc
    exact h ⟨hc.1, List.isPrefixOf_iff_prefix.mp hc.2⟩
  unfold replaceAll
  simp only [List.length_cons, replaceAllAux, if_neg h']

/-! Lemmas: occurrence analysis for substrings of concatenations. -/

theorem sub_append_cases {t a b : List Char} (h : t <:+: a ++ b) :
    t <:+: a ∨ t <:+: b ∨
      ∃ t1 t2, t1 ++ t2 = t ∧ t1 ≠ [] ∧ t2 ≠ [] ∧ t1 <:+ a ∧ t2 <+: b := by
  obtain ⟨u, v, huv⟩ := h
  have huv2 : u ++ (t ++ v) = a ++ b := by simpa [List.append_assoc] using huv
  rcases List.append_eq_append_iff.mp huv2 with ⟨e, he1, he2⟩ | ⟨e, he1, he2⟩
  · -- a = u ++ e, t ++ v = e ++ b
    rcases List.append_eq_append_iff.mp he2 with ⟨f, hf1, hf2⟩ | ⟨f, hf1, hf2⟩
    · -- e = t ++ f, v = f ++ b
      left
      exact ⟨u, f, by rw [he1, hf1, List.append_assoc]⟩
    · -- t = e ++ f, b = f ++ v
      rcases eq_or_ne e [] with rfl | hne
      · right; left
        simp only [List.nil_append] at hf1
        exact ⟨[], v, by rw [hf2, hf1]; simp⟩
      · rcases eq_or_ne f [] with rfl | hnf
        · left
          rw [List.append_nil] at hf1
          exact ⟨u, [], by rw [List.append_nil, he1, hf1]⟩
        · right; right
          exact ⟨e, f, hf1.symm, hne, hnf, ⟨u, he1.symm⟩, ⟨v, hf2.symm⟩⟩
  · -- u = a ++ e, b = e ++ (t ++ v)
    right; left
    exact ⟨e, v, by rw [he2, List.append_assoc]⟩

theorem not_sub_mono {n t X : List Char} (hn : n <:+: t) (hX : ¬ n <:+: X) :
    ¬ t <:+: X :=
  fun h => hX (hn.trans h)

theorem not_sub_append_right (k : List Char) {t a b : List Char} (ha : ¬ t <:+: a) (hb : ¬ t <:+: b)
    (hk : ∃ a0, a = a0 ++ k) (h1 : ¬ k <:+: t)
    (h2 : ∀ t1 ∈ k.tails, t1 <+: t → t1 = []) : ¬ t <:+: a ++ b := by
  intro h
  rcases sub_append_cases h with h | h | ⟨t1, t2, ht, hne1, hne2, hsa, hpb⟩
  · exact ha h
  · exact hb h
  · obtain ⟨a0, rfl⟩ := hk
    have hks : k <:+ a0 ++ k := ⟨a0, rfl⟩
    have ht1 : t1 <+: t := ⟨t2, ht⟩
    rcases List.suffix_or_suffix_of_suffix hsa hks with hh | hh
    · exact hne1 (h2 t1 ((List.mem_tails _ _).mpr hh) ht1)
    · exact h1 (hh.isInfix.trans ht1.isInfix)

theorem not_sub_append_left (k : List Char) {t a b : List Char} (ha : ¬ t <:+: a) (hb : ¬ t <:+: b)
    (hk : ∃ b0, b = k ++ b0) (h1 : ¬ k <:+: t)
    (h2 : ∀ t2 ∈ k.inits, t2 <:+ t → t2 = []) : ¬ t <:+: a ++ b := by
  intro h
  rcases sub_append_cases h with h | h | ⟨t1, t2, ht, hne1, hne2, hsa, hpb⟩
  · exact ha h
  · exact hb h
  · obtain ⟨b0, rfl⟩ := hk
    have hkp : k <+: k ++ b0 := ⟨b0, rfl⟩
    have ht2 : t2 <:+ t := ⟨t1, ht⟩
    rcases List.prefix_or_prefix_of_prefix hpb hkp with hh | hh
    · exact hne2 (h2 t2 ((List.mem_inits _ _).mpr hh) ht2)
    · exact h1 (hh.isInfix.trans ht2.isInfix)

/-! Lemmas: global behavior of `replaceAll`. -/

theorem replaceAll_of_not_sub {old new : List Char} :
    ∀ {s : List Char}, ¬ old <:+: s → replaceAll old new s = s := by
  intro s
  induction s with
  | nil => intro _; rfl
  | cons c s ih =>
    intro h
    have hrec : ¬ old <:+: s := fun hc => h (List.infix_cons hc)
    have hnp : ¬ (old ≠ [] ∧ old <+: c :: s) := by
      rintro ⟨-, hp⟩
      exact h hp.isInfix
    rw [replaceAll_cons_neg new hnp, ih hrec]

theorem replaceAll_single {old new pre post : List Char} (hold : old ≠ [])
    (h1 : ¬ old <:+: pre ++ old.dropLast) (h2 : ¬ old <:+: post) :
    replaceAll old new (pre ++ old ++ post) = pre ++ new ++ post := by
  induction pre with
  | nil =>
    simp only [List.nil_append]
    cases old with
    | nil => exact absurd rfl hold
    | cons o os =>
      have hpre : (o :: os) <+: (o :: os) ++ post := List.prefix_append _ _
      rw [show ((o :: os) ++ post : List Char) = o :: (os ++ post) by simp]
      rw [replaceAll_cons_pos new hold (by simp)]
      rw [show (o :: (os ++ post) : List Char) = (o :: os) ++ post by simp]
      rw [List.drop_left]
      rw [replaceAll_of_not_sub h2]
  | cons c pre ih =>
    have hlenold : 1 ≤ old.length := List.length_pos.mpr hold
    have hnp : ¬ (old ≠ [] ∧ old <+: (c :: pre) ++ old ++ post) := by
      rintro ⟨-, hp⟩
      apply h1
      have hz : ((c :: pre) ++ old ++ post : List Char) =
          ((c :: pre) ++ old.dropLast) ++ ([old.getLast hold] ++ post) := by
        conv_lhs => rw [← List.dropLast_append_getLast hold]
        simp [List.append_assoc]
      have htake : old = List.take old.length ((c :: pre) ++ old ++ post) :=
        List.prefix_iff_eq_take.mp hp
      have hlen2 : old.length ≤ ((c :: pre) ++ old.dropLast).length := by
        simp only [List.length_append, List.length_cons, List.length_dropLast]
        omega
      have htake2 : List.take old.length ((c :: pre) ++ old ++ post) =
          List.take old.length ((c :: pre) ++ old.dropLast) := by
        rw [hz, List.take_append_eq_append_take,
          Nat.sub_eq_zero_of_le hlen2, List.take_zero, List.append_nil]
      have : old <+: (c :: pre) ++ old.dropLast := by
        rw [List.prefix_iff_eq_take, ← htake2, ← htake]
      exact this.isInfix
    have h1' : ¬ old <:+: pre ++ old.dropLast := by
      intro hc
      apply h1
      have : (c :: pre) ++ old.dropLast = c :: (pre ++ old.dropLast) := by simp
      rw [this]
      exact List.infix_cons hc
    calc replaceAll old new ((c :: pre) ++ old ++ post)
        = replaceAll old new (c :: (pre ++ old ++ post)) := by simp [List.append_assoc]
      _ = c :: replaceAll old new (pre ++ old ++ post) := replaceAll_cons_neg new (by
            intro hc
            exact hnp ⟨hc.1, by simpa [List.append_assoc] using hc.2⟩)
      _ = c :: (pre ++ new ++ post) := by rw [ih h1' ]
      _ = (c :: pre) ++ new ++ post := by simp

/-! Lemmas: the three parameter names, their default priors and canonical
overrides, and which statements can contain which names. -/

theorem noName_all {D : List Char} (h : noName D) (T : RxnParam) :
    ¬ nameStr T <:+: D := by
  cases T with
  | sigma => exact h.1
  | intercept => exact h.2.1
  | rxn_ord => exact h.2.2

theorem not_name_sub_mkOv {T T' : RxnParam} (hne : T' ≠ T) {D : List Char}
    (hD : ¬ nameStr T' <:+: D) : ¬ nameStr T' <:+: mkOv T D := by
  have hcond : ∀ T T' : RxnParam, T' = T ∨
      ((¬ nameStr T' <:+: (nameStr T ++ (" ~ ".toList))) ∧
       (¬ (nameStr T ++ (" ~ ".toList)) <:+: nameStr T') ∧
       (∀ t1 ∈ (nameStr T ++ (" ~ ".toList)).tails, t1 <+: nameStr T' → t1 = [])) := by
    decide
  rcases hcond T T' with h | ⟨h1, h2, h3⟩
  · exact absurd h hne
  · exact not_sub_append_right (nameStr T ++ (" ~ ".toList)) h1 hD ⟨[], by simp⟩ h2 h3

theorem not_name_sub_stmtOf {T T' : RxnParam} (hne : T' ≠ T) {o : Option (List Char)}
    (hD : ∀ D, o = some D → ¬ nameStr T' <:+: D) :
    ¬ nameStr T' <:+: stmtOf T o := by
  cases o with
  | none =>
    have hcond : ∀ T T' : RxnParam, T' = T ∨ ¬ nameStr T' <:+: defaultPrior T := by decide
    rcases hcond T T' with h | h
    · exact absurd h hne
    · exact h
  | some D => exact not_name_sub_mkOv hne (hD D rfl)

theorem not_dp_sub_stmtOf {T T' : RxnParam} (hne : T' ≠ T) {o : Option (List Char)}
    (hD : ∀ D, o = some D → ¬ nameStr T' <:+: D) :
    ¬ defaultPrior T' <:+: stmtOf T o := by
  have hpre : ∀ U : RxnParam, nameStr U <:+: defaultPrior U := by decide
  exact not_sub_mono (hpre T') (not_name_sub_stmtOf hne hD)

/-! Lemmas: a canonical override rewrites exactly its own slot of the block. -/

theorem applyPrior_sigma (f : RxnParam → Option (List Char)) (D : List Char)
    (hT : f .sigma = none) (hD : noName D)
    (ho : ∀ U D', f U = some D' → noName D') :
    applyPrior (blockOf f) (mkOv .sigma D) = blockOf (updateAssign f .sigma D) := by
  have hc1 : containsSub (mkOv .sigma D) ("sigma".toList) = true := by
    unfold containsSub
    rw [decide_eq_true_iff]
    exact List.IsPrefix.isInfix ⟨(" ~ ".toList) ++ D, by simp [mkOv, nameStr, List.append_assoc]⟩
  have hc2 : containsSub (mkOv .sigma D) ("intercept".toList) = false := by
    unfold containsSub
    rw [decide_eq_false_iff_not]
    exact not_name_sub_mkOv (by decide) (noName_all hD .intercept)
  have hc3 : containsSub (mkOv .sigma D) ("rxn_ord".toList) = false := by
    unfold containsSub
    rw [decide_eq_false_iff_not]
    exact not_name_sub_mkOv (by decide) (noName_all hD .rxn_ord)
  have hSI : ¬ defaultPrior .sigma <:+: stmtOf .intercept (f .intercept) :=
    not_dp_sub_stmtOf (by decide) (fun D' h => noName_all (ho _ _ h) _)
  have hSR : ¬ defaultPrior .sigma <:+: stmtOf .rxn_ord (f .rxn_ord) :=
    not_dp_sub_stmtOf (by decide) (fun D' h => noName_all (ho _ _ h) _)
  have hF : ¬ defaultPrior .sigma <:+:
      (";\n  y ~ normal(intercept + rxn_ord * x, sigma);\x7d\n".toList) := by decide
  have hM : ¬ defaultPrior .sigma <:+: (";\n  ".toList) := by decide
  have hRF : ¬ defaultPrior .sigma <:+: stmtOf .rxn_ord (f .rxn_ord) ++
      (";\n  y ~ normal(intercept + rxn_ord * x, sigma);\x7d\n".toList) :=
    not_sub_append_left (";".toList) hSR hF
      ⟨("\n  y ~ normal(intercept + rxn_ord * x, sigma);\x7d\n".toList), rfl⟩
      (by decide) (by decide)
  have hMRF : ¬ defaultPrior .sigma <:+: (";\n  ".toList) ++
      (stmtOf .rxn_ord (f .rxn_ord) ++
        (";\n  y ~ normal(intercept + rxn_ord * x, sigma);\x7d\n".toList)) :=
    not_sub_append_right (";\n  ".toList) hM hRF ⟨[], by simp⟩ (by decide) (by decide)
  have hIMRF : ¬ defaultPrior .sigma <:+: stmtOf .intercept (f .intercept) ++
      ((";\n  ".toList) ++ (stmtOf .rxn_ord (f .rxn_ord) ++
        (";\n  y ~ normal(intercept + rxn_ord * x, sigma);\x7d\n".toList))) :=
    not_sub_append_left (";".toList) hSI hMRF
      ⟨("\n  ".toList) ++ (stmtOf .rxn_ord (f .rxn_ord) ++
        (";\n  y ~ normal(intercept + rxn_ord * x, sigma);\x7d\n".toList)), rfl⟩
      (by decide) (by decide)
  have hQ : ¬ defaultPrior .sigma <:+: (";\n  ".toList) ++
      (stmtOf .intercept (f .intercept) ++ ((";\n  ".toList) ++
        (stmtOf .rxn_ord (f .rxn_ord) ++
          (";\n  y ~ normal(intercept + rxn_ord * x, sigma);\x7d\n".toList)))) :=
    not_sub_append_right (";\n  ".toList) hM hIMRF ⟨[], by simp⟩ (by decide) (by decide)
  have hbl : blockOf f = ("model \x7b\n  ".toList) ++ defaultPrior .sigma ++
      ((";\n  ".toList) ++ (stmtOf .intercept (f .intercept) ++ ((";\n  ".toList) ++
        (stmtOf .rxn_ord (f .rxn_ord) ++
          (";\n  y ~ normal(intercept + rxn_ord * x, sigma);\x7d\n".toList))))) := by
    simp [blockOf, hT, stmtOf, List.append_assoc]
  have hrepl : replaceAll (defaultPrior .sigma) (mkOv .sigma D) (blockOf f) =
      ("model \x7b\n  ".toList) ++ mkOv .sigma D ++
      ((";\n  ".toList) ++ (stmtOf .intercept (f .intercept) ++ ((";\n  ".toList) ++
        (stmtOf .rxn_ord (f .rxn_ord) ++
          (";\n  y ~ normal(intercept + rxn_ord * x, sigma);\x7d\n".toList))))) := by
    rw [hbl]
    exact replaceAll_single (by decide) (by decide) hQ
  have hgoal : applyPrior (blockOf f) (mkOv .sigma D) =
      replaceAll (defaultPrior .sigma) (mkOv .sigma D) (blockOf f) := by
    unfold applyPrior
    rw [hc1, hc2, hc3]
    simp only [if_true, if_false]
    rfl
  rw [hgoal, hrepl]
  have hupd : blockOf (updateAssign f .sigma D) = ("model \x7b\n  ".toList) ++
      mkOv .sigma D ++
      ((";\n  ".toList) ++ (stmtOf .intercept (f .intercept) ++ ((";\n  ".toList) ++
        (stmtOf .rxn_ord (f .rxn_ord) ++
          (";\n  y ~ normal(intercept + rxn_ord * x, sigma);\x7d\n".toList))))) := by
    simp [blockOf, updateAssign, stmtOf, List.append_assoc]
  rw [hupd]

theorem applyPrior_intercept (f : RxnParam → Option (List Char)) (D : List Char)
    (hT : f .intercept = none) (hD : noName D)
    (ho : ∀ U D', f U = some D' → noName D') :
    applyPrior (blockOf f) (mkOv .intercept D) = blockOf (updateAssign f .intercept D) := by
  have hc1 : containsSub (mkOv .intercept D) ("sigma".toList) = false := by
    unfold containsSub
    rw [decide_eq_false_iff_not]
    exact not_name_sub_mkOv (by decide) (noName_all hD .sigma)
  have hc2 : containsSub (mkOv .intercept D) ("intercept".toList) = true := by
    unfold containsSub
    rw [decide_eq_true_iff]
    exact List.IsPrefix.isInfix ⟨(" ~ ".toList) ++ D, by simp [mkOv, nameStr, List.append_assoc]⟩
  have hc3 : containsSub (mkOv .intercept D) ("rxn_ord".toList) = false := by
    unfold containsSub
    rw [decide_eq_false_iff_not]
    exact not_name_sub_mkOv (by decide) (noName_all hD .rxn_ord)
  have hSS : ¬ defaultPrior .intercept <:+: stmtOf .sigma (f .sigma) :=
    not_dp_sub_stmtOf (by decide) (fun D' h => noName_all (ho _ _ h) _)
  have hSR : ¬ defaultPrior .intercept <:+: stmtOf .rxn_ord (f .rxn_ord) :=
    not_dp_sub_stmtOf (by decide) (fun D' h => noName_all (ho _ _ h) _)
  have hMd : ¬ defaultPrior .intercept <:+:
      ((";\n  ".toList) ++ (defaultPrior .intercept).dropLast) := by decide
  have hSMd : ¬ defaultPrior .intercept <:+: stmtOf .sigma (f .sigma) ++
      ((";\n  ".toList) ++ (defaultPrior .intercept).dropLast) :=
    not_sub_append_left (";".toList) hSS hMd
      ⟨("\n  ".toList) ++ (defaultPrior .intercept).dropLast, rfl⟩ (by decide) (by decide)
  have h1 : ¬ defaultPrior .intercept <:+: ("model \x7b\n  ".toList) ++
      (stmtOf .sigma (f .sigma) ++ ((";\n  ".toList) ++ (defaultPrior .intercept).dropLast)) :=
    not_sub_append_right ("model \x7b\n  ".toList) (by decide) hSMd ⟨[], by simp⟩
      (by decide) (by decide)
  have hF : ¬ defaultPrior .intercept <:+:
      (";\n  y ~ normal(intercept + rxn_ord * x, sigma);\x7d\n".toList) := by decide
  have hM : ¬ defaultPrior .intercept <:+: (";\n  ".toList) := by decide
  have hRF : ¬ defaultPrior .intercept <:+: stmtOf .rxn_ord (f .rxn_ord) ++
      (";\n  y ~ normal(intercept + rxn_ord * x, sigma);\x7d\n".toList) :=
    not_sub_append_left (";".toList) hSR hF
      ⟨("\n  y ~ normal(intercept + rxn_ord * x, sigma);\x7d\n".toList), rfl⟩
      (by decide) (by decide)
  have h2 : ¬ defaultPrior .intercept <:+: (";\n  ".toList) ++
      (stmtOf .rxn_ord (f .rxn_ord) ++
        (";\n  y ~ normal(intercept + rxn_ord * x, sigma);\x7d\n".toList)) :=
    not_sub_append_right (";\n  ".toList) hM hRF ⟨[], by simp⟩ (by decide) (by decide)
  have hbl : blockOf f = (("model \x7b\n  ".toList) ++
      (stmtOf .sigma (f .sigma) ++ (";\n  ".toList))) ++ defaultPrior .intercept ++
      ((";\n  ".toList) ++ (stmtOf .rxn_ord (f .rxn_ord) ++
        (";\n  y ~ normal(intercept + rxn_ord * x, sigma);\x7d\n".toList))) := by
    simp [blockOf, hT, stmtOf, List.append_assoc]
  have h1' : ¬ defaultPrior .intercept <:+: (("model \x7b\n  ".toList) ++
      (stmtOf .sigma (f .sigma) ++ (";\n  ".toList))) ++ (defaultPrior .intercept).dropLast := by
    intro hc
    apply h1
    have he : (("model \x7b\n  ".toList) ++ (stmtOf .sigma (f .sigma) ++ (";\n  ".toList))) ++
        (defaultPrior .intercept).dropLast = ("model \x7b\n  ".toList) ++
        (stmtOf .sigma (f .sigma) ++ ((";\n  ".toList) ++ (defaultPrior .intercept).dropLast)) := by
      simp [List.append_assoc]
    rw [he] at hc
    exact hc
  have hrepl : replaceAll (defaultPrior .intercept) (mkOv .intercept D) (blockOf f) =
      (("model \x7b\n  ".toList) ++ (stmtOf .sigma (f .sigma) ++ (";\n  ".toList))) ++
      mkOv .intercept D ++
      ((";\n  ".toList) ++ (stmtOf .rxn_ord (f .rxn_ord) ++
        (";\n  y ~ normal(intercept + rxn_ord * x, sigma);\x7d\n".toList))) := by
    rw [hbl]
    exact replaceAll_single (by decide) h1' h2
  have hgoal : applyPrior (blockOf f) (mkOv .intercept D) =
      replaceAll (defaultPrior .intercept) (mkOv .intercept D) (blockOf f) := by
    unfold applyPrior
    rw [hc1, hc2, hc3]
    simp only [if_true, if_false]
    rfl
  rw [hgoal, hrepl]
  have hupd : blockOf (updateAssign f .intercept D) = (("model \x7b\n  ".toList) ++
      (stmtOf .sigma (f .sigma) ++ (";\n  ".toList))) ++ mkOv .intercept D ++
      ((";\n  ".toList) ++ (stmtOf .rxn_ord (f .rxn_ord) ++
        (";\n  y ~ normal(intercept + rxn_ord * x, sigma);\x7d\n".toList))) := by
    simp [blockOf, updateAssign, stmtOf, List.append_assoc]
  rw [hupd]

theorem applyPrior_rxn_ord (f : RxnParam → Option (List Char)) (D : List Char)
    (hT : f .rxn_ord = none) (hD : noName D)
    (ho : ∀ U D', f U = some D' → noName D') :
    applyPrior (blockOf f) (mkOv .rxn_ord D) = blockOf (updateAssign f .rxn_ord D) := by
  have hc1 : containsSub (mkOv .rxn_ord D) ("sigma".toList) = false := by
    unfold containsSub
    rw [decide_eq_false_iff_not]
    exact not_name_sub_mkOv (by decide) (noName_all hD .sigma)
  have hc2 : containsSub (mkOv .rxn_ord D) ("intercept".toList) = false := by
    unfold containsSub
    rw [decide_eq_false_iff_not]
    exact not_name_sub_mkOv (by decide) (noName_all hD .intercept)
  have hc3 : containsSub (mkOv .rxn_ord D) ("rxn_ord".toList) = true := by
    unfold containsSub
    rw [decide_eq_true_iff]
    exact List.IsPrefix.isInfix ⟨(" ~ ".toList) ++ D, by simp [mkOv, nameStr, List.append_assoc]⟩
  have hSS : ¬ defaultPrior .rxn_ord <:+: stmtOf .sigma (f .sigma) :=
    not_dp_sub_stmtOf (by decide) (fun D' h => noName_all (ho _ _ h) _)
  have hSI : ¬ defaultPrior .rxn_ord <:+: stmtOf .intercept (f .intercept) :=
    not_dp_sub_stmtOf (by decide) (fun D' h => noName_all (ho _ _ h) _)
  have hM : ¬ defaultPrior .rxn_ord <:+: (";\n  ".toList) := by decide
  have c1 : ¬ defaultPrior .rxn_ord <:+:
      ((";\n  ".toList) ++ (defaultPrior .rxn_ord).dropLast) := by decide
  have c2 : ¬ defaultPrior .rxn_ord <:+: stmtOf .intercept (f .intercept) ++
      ((";\n  ".toList) ++ (defaultPrior .rxn_ord).dropLast) :=
    not_sub_append_left (";".toList) hSI c1
      ⟨("\n  ".toList) ++ (defaultPrior .rxn_ord).dropLast, rfl⟩ (by decide) (by decide)
  have c3 : ¬ defaultPrior .rxn_ord <:+: (";\n  ".toList) ++
      (stmtOf .intercept (f .intercept) ++
        ((";\n  ".toList) ++ (defaultPrior .rxn_ord).dropLast)) :=
    not_sub_append_right (";\n  ".toList) hM c2 ⟨[], by simp⟩ (by decide) (by decide)
  have c4 : ¬ defaultPrior .rxn_ord <:+: stmtOf .sigma (f .sigma) ++
      ((";\n  ".toList) ++ (stmtOf .intercept (f .intercept) ++
        ((";\n  ".toList) ++ (defaultPrior .rxn_ord).dropLast))) :=
    not_sub_append_left (";".toList) hSS c3
      ⟨("\n  ".toList) ++ (stmtOf .intercept (f .intercept) ++
        ((";\n  ".toList) ++ (defaultPrior .rxn_ord).dropLast)), rfl⟩ (by decide) (by decide)
  have c5 : ¬ defaultPrior .rxn_ord <:+: ("model \x7b\n  ".toList) ++
      (stmtOf .sigma (f .sigma) ++ ((";\n  ".toList) ++
        (stmtOf .intercept (f .intercept) ++
          ((";\n  ".toList) ++ (defaultPrior .rxn_ord).dropLast)))) :=
    not_sub_append_right ("model \x7b\n  ".toList) (by decide) c4 ⟨[], by simp⟩
      (by decide) (by decide)
  have hbl : blockOf f = (("model \x7b\n  ".toList) ++
      (stmtOf .sigma (f .sigma) ++ ((";\n  ".toList) ++
        (stmtOf .intercept (f .intercept) ++ (";\n  ".toList))))) ++ defaultPrior .rxn_ord ++
      (";\n  y ~ normal(intercept + rxn_ord * x, sigma);\x7d\n".toList) := by
    simp [blockOf, hT, stmtOf, List.append_assoc]
  have h1' : ¬ defaultPrior .rxn_ord <:+: (("model \x7b\n  ".toList) ++
      (stmtOf .sigma (f .sigma) ++ ((";\n  ".toList) ++
        (stmtOf .intercept (f .intercept) ++ (";\n  ".toList))))) ++
      (defaultPrior .rxn_ord).dropLast := by
    intro hc
    apply c5
    have he : (("model \x7b\n  ".toList) ++ (stmtOf .sigma (f .sigma) ++ ((";\n  ".toList) ++
        (stmtOf .intercept (f .intercept) ++ (";\n  ".toList))))) ++
        (defaultPrior .rxn_ord).dropLast = ("model \x7b\n  ".toList) ++
        (stmtOf .sigma (f .sigma) ++ ((";\n  ".toList) ++
          (stmtOf .intercept (f .intercept) ++
            ((";\n  ".toList) ++ (defaultPrior .rxn_ord).dropLast)))) := by
      simp [List.append_assoc]
    rw [he] at hc
    exact hc
  have h2 : ¬ defaultPrior .rxn_ord <:+:
      (";\n  y ~ normal(intercept + rxn_ord * x, sigma);\x7d\n".toList) := by decide
  have hrepl : replaceAll (defaultPrior .rxn_ord) (mkOv .rxn_ord D) (blockOf f) =
      (("model \x7b\n  ".toList) ++ (stmtOf .sigma (f .sigma) ++ ((";\n  ".toList) ++
        (stmtOf .intercept (f .intercept) ++ (";\n  ".toList))))) ++ mkOv .rxn_ord D ++
      (";\n  y ~ normal(intercept + rxn_ord * x, sigma);\x7d\n".toList) := by
    rw [hbl]
    exact replaceAll_single (by decide) h1' h2
  have hgoal : applyPrior (blockOf f) (mkOv .rxn_ord D) =
      replaceAll (defaultPrior .rxn_ord) (mkOv .rxn_ord D) (blockOf f) := by
    unfold applyPrior
    rw [hc1, hc2, hc3]
    simp only [if_true, if_false]
    rfl
  rw [hgoal, hrepl]
  have hupd : blockOf (updateAssign f .rxn_ord D) = (("model \x7b\n  ".toList) ++
      (stmtOf .sigma (f .sigma) ++ ((";\n  ".toList) ++
        (stmtOf .intercept (f .intercept) ++ (";\n  ".toList))))) ++ mkOv .rxn_ord D ++
      (";\n  y ~ normal(intercept + rxn_ord * x, sigma);\x7d\n".toList) := by
    simp [blockOf, updateAssign, stmtOf, List.append_assoc]
  rw [hupd]

theorem applyPrior_canonical (f : RxnParam → Option (List Char)) (T : RxnParam) (D : List Char)
    (hT : f T = none) (hD : noName D)
    (ho : ∀ U D', f U = some D' → noName D') :
    applyPrior (blockOf f) (mkOv T D) = blockOf (updateAssign f T D) := by
  cases T with
  | sigma => exact applyPrior_sigma f D hT hD ho
  | intercept => exact applyPrior_intercept f D hT hD ho
  | rxn_ord => exact applyPrior_rxn_ord f D hT hD ho

theorem blockOf_congr {f g : RxnParam → Option (List Char)} (h : ∀ T, f T = g T) :
    blockOf f = blockOf g := by
  unfold blockOf
  rw [h .sigma, h .intercept, h .rxn_ord]

theorem termOf_mkOv (T : RxnParam) (D : List Char) :
    termOf (mkOv T D) = nameStr T ++ (" ".toList) := by
  cases T <;> rfl

theorem term_check_blockOf {f : RxnParam → Option (List Char)} {T : RxnParam}
    (hT : f T = none) (D : List Char) :
    containsSub (blockOf f) (termOf (mkOv T D)) = true := by
  unfold containsSub
  rw [decide_eq_true_iff, termOf_mkOv]
  have hin : (nameStr T ++ (" ".toList)) <:+: defaultPrior T := by
    have : ∀ U : RxnParam, (nameStr U ++ (" ".toList)) <:+: defaultPrior U := by decide
    exact this T
  apply hin.trans
  cases T with
  | sigma =>
    exact ⟨("model \x7b\n  ".toList),
      (";\n  ".toList) ++ stmtOf .intercept (f .intercept) ++ ((";\n  ".toList) ++
        (stmtOf .rxn_ord (f .rxn_ord) ++
          (";\n  y ~ normal(intercept + rxn_ord * x, sigma);\x7d\n".toList))),
      by simp [blockOf, hT, stmtOf, List.append_assoc]⟩
  | intercept =>
    exact ⟨("model \x7b\n  ".toList) ++ stmtOf .sigma (f .sigma) ++ (";\n  ".toList),
      (";\n  ".toList) ++ (stmtOf .rxn_ord (f .rxn_ord) ++
        (";\n  y ~ normal(intercept + rxn_ord * x, sigma);\x7d\n".toList)),
      by simp [blockOf, hT, stmtOf, List.append_assoc]⟩
  | rxn_ord =>
    exact ⟨("model \x7b\n  ".toList) ++ stmtOf .sigma (f .sigma) ++ (";\n  ".toList) ++
      stmtOf .intercept (f .intercept) ++ (";\n  ".toList),
      (";\n  y ~ normal(intercept + rxn_ord * x, sigma);\x7d\n".toList),
      by simp [blockOf, hT, stmtOf, List.append_assoc]⟩

theorem applyPriors_canonical :
    ∀ (l : List (RxnParam × List Char)) (f : RxnParam → Option (List Char)),
      (∀ T D, (T, D) ∈ l → f T = none) →
      List.Pairwise (fun p q => p.1 ≠ q.1) l →
      (∀ T D, (T, D) ∈ l → noName D) →
      (∀ T D, f T = some D → noName D) →
      applyPriors (l.map (fun p => mkOv p.1 p.2)) (blockOf f) =
        .ok (blockOf (fun U => match f U with
          | some D => some D
          | none => assignOf l U)) := by
  intro l
  induction l with
  | nil =>
    intro f _ _ _ _
    simp only [List.map_nil, applyPriors]
    congr 1
    apply blockOf_congr
    intro T
    cases hfT : f T <;> simp [assignOf]
  | cons hd tl ih =>
    intro f hnone hpw hnn ho
    obtain ⟨T, D⟩ := hd
    have hfT : f T = none := hnone T D (List.mem_cons_self _ _)
    have hDnn : noName D := hnn T D (List.mem_cons_self _ _)
    obtain ⟨hhd, htl⟩ := List.pairwise_cons.mp hpw
    simp only [List.map_cons, applyPriors, term_check_blockOf hfT D, if_true]
    rw [applyPrior_canonical f T D hfT hDnn ho]
    rw [ih (updateAssign f T D)
      (fun U D' hmem => by
        have hne : T ≠ U := hhd (U, D') hmem
        unfold updateAssign
        rw [if_neg (fun hc => hne hc.symm)]
        exact hnone U D' (List.mem_cons_of_mem _ hmem))
      htl
      (fun U D' hmem => hnn U D' (List.mem_cons_of_mem _ hmem))
      (fun U D' hU => by
        by_cases hUT : U = T
        · subst hUT
          unfold updateAssign at hU
          rw [if_pos rfl] at hU
          cases hU
          exact hDnn
        · unfold updateAssign at hU
          rw [if_neg hUT] at hU
          exact ho U D' hU)]
    congr 1
    apply blockOf_congr
    intro U
    by_cases hUT : U = T
    · subst hUT
      unfold updateAssign
      rw [if_pos rfl, hfT]
      simp [assignOf]
    · unfold updateAssign
      rw [if_neg hUT]
      cases hfU : f U with
      | some D' => simp
      | none =>
        simp only []
        have hcons : assignOf ((T, D) :: tl) U = if T = U then some D else assignOf tl U := rfl
        rw [hcons, if_neg (fun hc => hUT hc.symm)]

/-! Lemmas: characterization of when the override loop raises. -/

theorem applyPriors_error_iff :
    ∀ (ps : List (List Char)) (b : List Char),
      (∃ e, applyPriors ps b = .error e) ↔
        ∃ i p, ps[i]? = some p ∧
          containsSub (List.foldl applyPrior b (ps.take i)) (termOf p) = false := by
  intro ps
  induction ps with
  | nil =>
    intro b
    constructor
    · rintro ⟨e, he⟩
      simp [applyPriors] at he
    · rintro ⟨i, p, hp, -⟩
      simp at hp
  | cons q ps ih =>
    intro b
    by_cases hc : containsSub b (termOf q) = true
    · constructor
      · rintro ⟨e, he⟩
        simp only [applyPriors, hc, if_true] at he
        obtain ⟨i, p, hp, hfold⟩ := (ih (applyPrior b q)).mp ⟨e, he⟩
        refine ⟨i + 1, p, by simpa using hp, ?_⟩
        simpa [List.foldl] using hfold
      · rintro ⟨i, p, hp, hfold⟩
        cases i with
        | zero =>
          simp only [List.getElem?_cons_zero, Option.some_inj] at hp
          subst hp
          simp only [List.take_zero, List.foldl_nil] at hfold
          rw [hc] at hfold
          cases hfold
        | succ i =>
          have hex : ∃ e, applyPriors ps (applyPrior b q) = .error e := by
            refine (ih _).mpr ⟨i, p, by simpa using hp, ?_⟩
            simpa [List.foldl] using hfold
          obtain ⟨e, he⟩ := hex
          exact ⟨e, by simp [applyPriors, hc, he]⟩
    · have hcf : containsSub b (termOf q) = false := by
        cases hcc : containsSub b (termOf q)
        · rfl
        · exact absurd hcc hc
      constructor
      · intro _
        exact ⟨0, q, by simp, by simpa using hcf⟩
      · intro _
        exact ⟨.priorNotFound (termOf q), by simp [applyPriors, hcf]⟩

/-! The claims. -/

/-- C1 counterexample: the override list
["sigma ~ cauchy(0, foo)", "foo~ bar"] contains an override ("foo~ bar")
whose term "foo" does not occur anywhere in the default model section, yet
generation does not raise: it returns a model text, because the first
override introduced the text "foo" into the model block before the second
override was checked. -/
theorem rxn_ord_C1_counterexample :
    containsSub model_block (termOf ("foo~ bar".toList)) = false ∧
    write_rxn_ord_stan_code
        (some [("sigma ~ cauchy(0, foo)".toList), ("foo~ bar".toList)]) =
      .ok (data_block ++ par_block ++
        ("model \x7b\n  sigma ~ cauchy(0, foo);\n  intercept ~ normal(10,100);\n  rxn_ord ~ normal(0,100);\n  y ~ normal(intercept + rxn_ord * x, sigma);\x7d\n".toList)) :=
  ⟨by decide, rfl⟩

/-- C1 (amended): generation raises the configuration error exactly when some
override, at its turn in the loop, has a term that does not occur in the model
block as already modified by the preceding overrides; the existence check is
incremental, not a check against the unmodified default model section. -/
theorem rxn_ord_C1_amended (ps : List (List Char)) :
    (∃ e, write_rxn_ord_stan_code (some ps) = .error e) ↔
      ∃ i p, ps[i]? = some p ∧
        containsSub (List.foldl applyPrior model_block (ps.take i)) (termOf p) = false := by
  rw [← applyPriors_error_iff ps model_block]
  have hw : write_rxn_ord_stan_code (some ps) =
      (applyPriors ps model_block).map (fun mb => data_block ++ par_block ++ mb) := rfl
  rw [hw]
  constructor
  · rintro ⟨e, he⟩
    cases happ : applyPriors ps model_block with
    | error e1 => exact ⟨e1, rfl⟩
    | ok v =>
      rw [happ] at he
      simp [Except.map] at he
  · rintro ⟨e, he⟩
    exact ⟨e, by simp [he, Except.map]⟩

/-- C2 counterexample: the single-override list ["y ~ foo"] is valid in the
sense of the claim (its term "y " occurs in the default model section), yet
the returned model text is the unmodified default template and does not
contain the override string at all: no recognized parameter-name substring
occurs in the override, so no replacement branch fires and the override is
silently dropped. -/
theorem rxn_ord_C2_counterexample :
    containsSub model_block (termOf ("y ~ foo".toList)) = true ∧
    write_rxn_ord_stan_code (some [("y ~ foo".toList)]) =
      .ok (data_block ++ par_block ++ model_block) ∧
    containsSub (data_block ++ par_block ++ model_block) ("y ~ foo".toList) = false :=
  ⟨by decide, rfl, by decide⟩

/-- C2 (amended): for every override list in canonical form - each override
reading "name ~ distribution" with name one of sigma/intercept/rxn_ord, the
names pairwise distinct, and no distribution text containing any of the three
recognized names - the generated text is exactly the default template with
each matching default prior statement replaced by the override verbatim and
every other byte unchanged (`blockOf` spells out that template). -/
theorem rxn_ord_C2_amended (l : List (RxnParam × List Char))
    (hpw : List.Pairwise (fun p q => p.1 ≠ q.1) l)
    (hnn : ∀ p ∈ l, noName p.2) :
    write_rxn_ord_stan_code (some (l.map (fun p => mkOv p.1 p.2))) =
      .ok (data_block ++ par_block ++ blockOf (assignOf l)) := by
  have hw : write_rxn_ord_stan_code (some (l.map (fun p => mkOv p.1 p.2))) =
      (applyPriors (l.map (fun p => mkOv p.1 p.2)) model_block).map
        (fun mb => data_block ++ par_block ++ mb) := rfl
  have hmb : model_block = blockOf (fun _ => none) := rfl
  rw [hw, hmb, applyPriors_canonical l (fun _ => none) (fun _ _ _ => rfl) hpw
    (fun T D h => hnn (T, D) h) (fun T D h => Option.noConfusion h)]
  rfl

/-- C2 witness: a concrete canonical override list, its side conditions, and
the generated text. -/
theorem rxn_ord_C2_witness :
    List.Pairwise (fun p q : RxnParam × List Char => p.1 ≠ q.1)
      [(RxnParam.rxn_ord, ("normal(1, 2)".toList)),
       (RxnParam.sigma, ("normal(0, 1)".toList))] ∧
    (∀ p ∈ [(RxnParam.rxn_ord, ("normal(1, 2)".toList)),
       (RxnParam.sigma, ("normal(0, 1)".toList))], noName p.2) ∧
    write_rxn_ord_stan_code
        (some ([(RxnParam.rxn_ord, ("normal(1, 2)".toList)),
          (RxnParam.sigma, ("normal(0, 1)".toList))].map (fun p => mkOv p.1 p.2))) =
      .ok (data_block ++ par_block ++
        blockOf (assignOf [(RxnParam.rxn_ord, ("normal(1, 2)".toList)),
          (RxnParam.sigma, ("normal(0, 1)".toList))])) :=
  ⟨by decide, by decide,
    rxn_ord_C2_amended
      [(RxnParam.rxn_ord, ("normal(1, 2)".toList)),
       (RxnParam.sigma, ("normal(0, 1)".toList))] (by decide) (by decide)⟩

/-- C3: matching is purely substring based: the single override
" ~ sigma_intercept_prior()" (term " ") contains both recognized substrings
"sigma" and "intercept", and applying the generator overwrites both the
default sigma prior statement and the default intercept prior statement with
that one override; neither default statement survives in the output. -/
theorem rxn_ord_C3 :
    containsSub (" ~ sigma_intercept_prior()".toList) ("sigma".toList) = true ∧
    containsSub (" ~ sigma_intercept_prior()".toList) ("intercept".toList) = true ∧
    write_rxn_ord_stan_code (some [(" ~ sigma_intercept_prior()".toList)]) =
      .ok (data_block ++ par_block ++
        ("model \x7b\n  sigma ~ sigma_intercept_prior();\n  intercept ~ sigma_intercept_prior();\n  rxn_ord ~ normal(0,100);\n  y ~ normal(intercept + rxn_ord * x, sigma);\x7d\n".toList)) ∧
    containsSub (data_block ++ par_block ++
        ("model \x7b\n  sigma ~ sigma_intercept_prior();\n  intercept ~ sigma_intercept_prior();\n  rxn_ord ~ normal(0,100);\n  y ~ normal(intercept + rxn_ord * x, sigma);\x7d\n".toList))
      (defaultPrior .sigma) = false ∧
    containsSub (data_block ++ par_block ++
        ("model \x7b\n  sigma ~ sigma_intercept_prior();\n  intercept ~ sigma_intercept_prior();\n  rxn_ord ~ normal(0,100);\n  y ~ normal(intercept + rxn_ord * x, sigma);\x7d\n".toList))
      (defaultPrior .intercept) = false :=
  ⟨by decide, by decide, rfl, by decide, by decide⟩

/-- C4: for every explicitly supplied pair (warmup, iters) with
warmup >= iters, and whenever the model-code generation succeeds, the MCMC
driver raises the warmup configuration error; no engine invocation
(`SamplingCall`, covering model compilation and sampling) is ever produced. -/
theorem rxn_ord_C4 (log : Rat → Rat) (press rates : List Rat)
    (priors : Option (List (List Char))) (code : List Char)
    (hcode : write_rxn_ord_stan_code priors = .ok code)
    (w iters : Int) (hw : w ≥ iters) (chains : Nat) (init_random : Bool)
    (i1 i2 i3 : Rat) :
    MCMC log press rates priors (some w) iters chains init_random i1 i2 i3 =
        .error (.warmupNotLessThanIters w iters) ∧
      ∀ call : SamplingCall,
        MCMC log press rates priors (some w) iters chains init_random i1 i2 i3 ≠
          .ok call := by
  have h1 : MCMC log press rates priors (some w) iters chains init_random i1 i2 i3 =
      .error (.warmupNotLessThanIters w iters) := by
    unfold MCMC
    rw [hcode]
    simp [hw]
  exact ⟨h1, fun call hc => by rw [h1] at hc; cases hc⟩

/-- C4 witness: the concrete scenario warmup=3000, iters=1000 with default
priors. -/
theorem rxn_ord_C4_witness :
    write_rxn_ord_stan_code none = .ok (data_block ++ par_block ++ model_block) ∧
    (3000 : Int) ≥ 1000 ∧
    MCMC (fun q => q) [] [] none (some 3000) 1000 2 false 10 0 1 =
      .error (.warmupNotLessThanIters 3000 1000) :=
  ⟨rfl, by decide,
    (rxn_ord_C4 (fun q => q) [] [] none (data_block ++ par_block ++ model_block)
      rfl 3000 1000 (by decide) 2 false 10 0 1).1⟩

/-- C5: the cache filename is the stated deterministic function of the model
text and model name - cached-\x7bname\x7d-\x7bhash\x7d.pkl, or
cached-model-\x7bhash\x7d.pkl when the name is None - and whenever two model
texts have different content hashes the filenames differ. -/
theorem rxn_ord_C5 :
    (∀ (md5hex : List Char → List Char) (code : List Char) (name : List Char),
      StanModel_cache_fn md5hex code (some name) =
        ("cached-".toList) ++ name ++ ("-".toList) ++ md5hex code ++ (".pkl".toList) ∧
      StanModel_cache_fn md5hex code none =
        ("cached-model-".toList) ++ md5hex code ++ (".pkl".toList)) ∧
    (∀ (md5hex : List Char → List Char) (c1 c2 : List Char) (name : Option (List Char)),
      md5hex c1 ≠ md5hex c2 →
        StanModel_cache_fn md5hex c1 name ≠ StanModel_cache_fn md5hex c2 name) := by
  constructor
  · intro md5hex code name
    exact ⟨rfl, rfl⟩
  · intro md5hex c1 c2 name hne heq
    apply hne
    cases name with
    | none =>
      have e1 : StanModel_cache_fn md5hex c1 none =
          ("cached-model-".toList) ++ (md5hex c1 ++ (".pkl".toList)) := by
        simp [StanModel_cache_fn, List.append_assoc]
      have e2 : StanModel_cache_fn md5hex c2 none =
          ("cached-model-".toList) ++ (md5hex c2 ++ (".pkl".toList)) := by
        simp [StanModel_cache_fn, List.append_assoc]
      rw [e1, e2] at heq
      exact List.append_cancel_right (List.append_cancel_left heq)
    | some nm =>
      have e1 : StanModel_cache_fn md5hex c1 (some nm) =
          ("cached-".toList) ++ (nm ++ (("-".toList) ++ (md5hex c1 ++ (".pkl".toList)))) := by
        simp [StanModel_cache_fn, List.append_assoc]
      have e2 : StanModel_cache_fn md5hex c2 (some nm) =
          ("cached-".toList) ++ (nm ++ (("-".toList) ++ (md5hex c2 ++ (".pkl".toList)))) := by
        simp [StanModel_cache_fn, List.append_assoc]
      rw [e1, e2] at heq
      have h1 := List.append_cancel_left heq
      have h2 := List.append_cancel_left h1
      have h3 := List.append_cancel_left h2
      exact List.append_cancel_right h3

/-- C5 witness: two texts with distinct hashes yield distinct filenames. -/
theorem rxn_ord_C5_witness :
    (fun s : List Char => s) ("a".toList) ≠ (fun s : List Char => s) ("b".toList) ∧
    StanModel_cache_fn (fun s => s) ("a".toList) (some ("m".toList)) ≠
      StanModel_cache_fn (fun s => s) ("b".toList) (some ("m".toList)) :=
  ⟨by decide,
    rxn_ord_C5.2 (fun s => s) ("a".toList) ("b".toList) (some ("m".toList)) (by decide)⟩

/-- C6: when opening the cache file fails (file absent or unreadable), the
failure is caught: the model is compiled fresh by the external engine, the
result is pickled to the cache path, and the compiled model is returned - no
error is surfaced to the caller and no cache-hit notice is printed. -/
theorem rxn_ord_C6 {SM : Type} (md5hex : List Char → List Char)
    (compile : List Char → SM) (fs : List Char → CacheRead SM)
    (model_code : List Char) (model_name : Option (List Char))
    (hfail : fs (StanModel_cache_fn md5hex model_code model_name) = .fail) :
    StanModel_cache md5hex compile fs model_code model_name =
      { sm := compile model_code,
        dumped := some (StanModel_cache_fn md5hex model_code model_name,
          compile model_code),
        used_cache_msg := false } := by
  simp [StanModel_cache, hfail]

/-- C6 witness: a file system on which every open fails. -/
theorem rxn_ord_C6_witness :
    ((fun _ : List Char => (CacheRead.fail : CacheRead Nat))
        (StanModel_cache_fn (fun s => s) ("m".toList) none) = .fail) ∧
    StanModel_cache (fun s => s) List.length
        (fun _ : List Char => (CacheRead.fail : CacheRead Nat)) ("m".toList) none =
      { sm := List.length ("m".toList),
        dumped := some (StanModel_cache_fn (fun s => s) ("m".toList) none,
          List.length ("m".toList)),
        used_cache_msg := false } :=
  ⟨rfl, rxn_ord_C6 (fun s => s) List.length
    (fun _ => CacheRead.fail) ("m".toList) none rfl⟩

/-- C7: for pressure and rate columns of common length, the data loader
returns x and y of that same length together with the count N, with
x[i] = log(pressure[i]) and y[i] = log(abs(rate[i])) at every index. -/
theorem rxn_ord_C7 (log : Rat → Rat) (press rates : List Rat)
    (h : rates.length = press.length) :
    (rxn_ord_exp_data log press rates).N = press.length ∧
    (rxn_ord_exp_data log press rates).x.length = press.length ∧
    (rxn_ord_exp_data log press rates).y.length = press.length ∧
    (∀ i : Nat, (rxn_ord_exp_data log press rates).x[i]? = (press[i]?).map log) ∧
    (∀ i : Nat, (rxn_ord_exp_data log press rates).y[i]? =
      (rates[i]?).map (fun r => log |r|)) := by
  unfold rxn_ord_exp_data
  exact ⟨by simp, by simp, by simp [h], fun i => by simp, fun i => by simp⟩

/-- C7 witness: a concrete two-row dataset with a negative rate. -/
theorem rxn_ord_C7_witness :
    ([(-3 : Rat), 4].length = [(1 : Rat), 2].length) ∧
    (rxn_ord_exp_data (fun q => q + 1) [1, 2] [-3, 4]).N = [(1 : Rat), 2].length ∧
    (rxn_ord_exp_data (fun q => q + 1) [1, 2] [-3, 4]).x.length = [(1 : Rat), 2].length ∧
    (rxn_ord_exp_data (fun q => q + 1) [1, 2] [-3, 4]).y.length = [(1 : Rat), 2].length ∧
    (∀ i : Nat, (rxn_ord_exp_data (fun q => q + 1) [1, 2] [-3, 4]).x[i]? =
      (([(1 : Rat), 2])[i]?).map (fun q => q + 1)) ∧
    (∀ i : Nat, (rxn_ord_exp_data (fun q => q + 1) [1, 2] [-3, 4]).y[i]? =
      (([(-3 : Rat), 4])[i]?).map (fun r => (fun q => q + 1) |r|)) :=
  ⟨by decide, rxn_ord_C7 (fun q => q + 1) [1, 2] [-3, 4] (by decide)⟩

/-- C8: the Variational Driver summary table has one row per parameter name in
sampler_param_names except exactly the trailing one, and row i pairs name i
with the rounded mean, standard deviation and 2.5/25/50/75/97.5 percent
quantiles of the samples of parameter i. -/
theorem rxn_ord_C8 (rnd : Rat → Rat) (mean sd : List Rat → Rat)
    (quantile : List Rat → Rat → Rat) (sample_names : List (List Char))
    (sample_vals : List (List Rat))
    (h : sample_vals.length = sample_names.length) :
    (VI_summary_table rnd mean sd quantile sample_names sample_vals).length =
        sample_names.length - 1 ∧
    ∀ i : Nat,
      (VI_summary_table rnd mean sd quantile sample_names sample_vals)[i]? =
        if i < sample_names.length - 1 then
          some (sample_names.getD i [],
            [rnd (mean (sample_vals.getD i [])),
             rnd (sd (sample_vals.getD i [])),
             rnd (quantile (sample_vals.getD i []) 0.025),
             rnd (quantile (sample_vals.getD i []) 0.25),
             rnd (quantile (sample_vals.getD i []) 0.5),
             rnd (quantile (sample_vals.getD i []) 0.75),
             rnd (quantile (sample_vals.getD i []) 0.975)])
        else none := by
  constructor
  · simp [VI_summary_table]
  · intro i
    by_cases hi : i < sample_names.length - 1
    · rw [if_pos hi]
      have hrows : (sample_names.dropLast).length = sample_names.length - 1 :=
        List.length_dropLast _
      have hirange : i < (sample_names.dropLast).length := by rw [hrows]; exact hi
      have hgetd : (sample_names.dropLast).getD i [] = sample_names.getD i [] := by
        rw [List.dropLast_eq_take, List.getD_eq_getElem?_getD, List.getD_eq_getElem?_getD,
          List.getElem?_take, if_pos hi]
      simp only [VI_summary_table, List.getElem?_map]
      rw [List.getElem?_range hirange]
      simp [hgetd]
      rw [List.dropLast_eq_take, List.getElem?_take, if_pos hi]
    · rw [if_neg hi]
      apply List.getElem?_eq_none
      simp only [VI_summary_table, List.length_map, List.length_range, List.length_dropLast]
      omega

/-- C8 witness: two parameters plus the trailing internal value. -/
theorem rxn_ord_C8_witness :
    ([[(5 : Rat)], [6], [7]].length = [("a".toList), ("b".toList), ("lp".toList)].length) ∧
    (VI_summary_table (fun q => q) (fun l => l.headD 0) (fun l => l.headD 0)
        (fun _ q => q) [("a".toList), ("b".toList), ("lp".toList)]
        [[(5 : Rat)], [6], [7]]).length =
      [("a".toList), ("b".toList), ("lp".toList)].length - 1 ∧
    ∀ i : Nat,
      (VI_summary_table (fun q => q) (fun l => l.headD 0) (fun l => l.headD 0)
          (fun _ q => q) [("a".toList), ("b".toList), ("lp".toList)]
          [[(5 : Rat)], [6], [7]])[i]? =
        if i < [("a".toList), ("b".toList), ("lp".toList)].length - 1 then
          some ([("a".toList), ("b".toList), ("lp".toList)].getD i [],
            [(fun q : Rat => q) ((fun l : List Rat => l.headD 0)
                ([[(5 : Rat)], [6], [7]].getD i [])),
             (fun q : Rat => q) ((fun l : List Rat => l.headD 0)
                ([[(5 : Rat)], [6], [7]].getD i [])),
             (fun q : Rat => q) ((fun _ : List Rat => (0.025 : Rat) )
                ([[(5 : Rat)], [6], [7]].getD i [])),
             (fun q : Rat => q) ((fun _ : List Rat => (0.25 : Rat) )
                ([[(5 : Rat)], [6], [7]].getD i [])),
             (fun q : Rat => q) ((fun _ : List Rat => (0.5 : Rat) )
                ([[(5 : Rat)], [6], [7]].getD i [])),
             (fun q : Rat => q) ((fun _ : List Rat => (0.75 : Rat) )
                ([[(5 : Rat)], [6], [7]].getD i [])),
             (fun q : Rat => q) ((fun _ : List Rat => (0.975 : Rat) )
                ([[(5 : Rat)], [6], [7]].getD i []))])
        else none :=
  ⟨by decide,
    rxn_ord_C8 (fun q => q) (fun l => l.headD 0) (fun l => l.headD 0) (fun _ q => q)
      [("a".toList), ("b".toList), ("lp".toList)] [[(5 : Rat)], [6], [7]] (by decide)⟩

/-- C9: the term-existence check runs against the incrementally modified model
block, so acceptance is order dependent: the list
["sigma ~ cauchy(0, foo)", "foo~ bar"] is accepted (the first override
introduces "foo" into the block, as the last conjunct shows), while the same
list reversed raises the configuration error, "foo" being absent from the
default model block. -/
theorem rxn_ord_C9 :
    write_rxn_ord_stan_code
        (some [("sigma ~ cauchy(0, foo)".toList), ("foo~ bar".toList)]) =
      .ok (data_block ++ par_block ++
        ("model \x7b\n  sigma ~ cauchy(0, foo);\n  intercept ~ normal(10,100);\n  rxn_ord ~ normal(0,100);\n  y ~ normal(intercept + rxn_ord * x, sigma);\x7d\n".toList)) ∧
    write_rxn_ord_stan_code
        (some [("foo~ bar".toList), ("sigma ~ cauchy(0, foo)".toList)]) =
      .error (.priorNotFound ("foo".toList)) ∧
    containsSub model_block (termOf ("foo~ bar".toList)) = false ∧
    containsSub (applyPrior model_block ("sigma ~ cauchy(0, foo)".toList))
      (termOf ("foo~ bar".toList)) = true :=
  ⟨rfl, rfl, by decide, by decide⟩

/-- C10: calling the generator with an empty override list returns exactly the
same text as calling it with no overrides at all, namely the fixed default
template. -/
theorem rxn_ord_C10 :
    write_rxn_ord_stan_code (some []) = write_rxn_ord_stan_code none ∧
    write_rxn_ord_stan_code none = .ok (data_block ++ par_block ++ model_block) :=
  ⟨rfl, rfl⟩
